import Mathlib

/-!
Verification of the obsidian-reflector core services against their
natural-language specification.

The embedding models strings as `List Char` (`Str`) so that all string
operations of the TypeScript source (trim, startsWith, substring search,
regex scans) become executable structural recursions.  Each definition is a
direct translation of the function of the same name in the source:

* `Reflector.parseDailyNote`       — MeetingNoteParser.parseDailyNote
* `Reflector.finalizeMeetingNote`  — MeetingNoteParser.finalizeMeetingNote
* `Reflector.extractTags`          — MeetingNoteParser.extractTags (the global
  hashtag regex, hash then one or more of word char, slash, dash, plus Set dedup)
* `Reflector.getRelatedMeetingNotes` — MeetingNoteParser.getRelatedMeetingNotes
* `Reflector.suggestTags`, `Reflector.calculateTagScore`, `Reflector.tokenize`,
  `Reflector.getMatchReason`       — TagService
* `Reflector.getTodosForMeetingNote`, `Reflector.todoHasLinkToNote`
                                   — TodoService

File-system and metadata-cache collaborators (the Obsidian `App`) are
modelled as parameters: the collection of parsed notes, the vault tag list,
the list of all todos, and the per-file tag cache are passed in explicitly.
-/

namespace Reflector

/-- Strings are modelled as lists of characters. -/
abbrev Str := List Char

/-- Coerce a Lean string literal into the model. -/
def str (s : String) : Str := s.toList

/-- Whitespace test used by `trim` (models JavaScript String.prototype.trim
on the ASCII whitespace that occurs in markdown lines). -/
def isWS (c : Char) : Bool := c.isWhitespace

/-- JavaScript `s.trim()`: drop leading and trailing whitespace. -/
def trim (s : Str) : Str :=
  ((s.dropWhile isWS).reverse.dropWhile isWS).reverse

/-- JavaScript `s.startsWith(p)`. -/
def startsWith (s p : Str) : Bool := List.isPrefixOf p s

/-- JavaScript `s.toLowerCase()` (ASCII range, which is all the source uses). -/
def lowerStr (s : Str) : Str := s.map Char.toLower

/-- Boolean prefix test used by the substring search. -/
def isPrefixB : Str → Str → Bool
  | [], _ => true
  | _ :: _, [] => false
  | a :: as, b :: bs => a == b && isPrefixB as bs

/-- JavaScript `hay.includes(needle)`: substring test. -/
def isSubstr (needle hay : Str) : Bool :=
  if isPrefixB needle hay then true
  else match hay with
    | [] => false
    | _ :: t => isSubstr needle t

/-- JavaScript `s.endsWith(p)`. -/
def endsWith (s p : Str) : Bool := List.isSuffixOf p s

/-- Character class of the hashtag regex body: word character, slash or dash
(`\w` = ASCII letters, digits and underscore). -/
def tagBodyChar (c : Char) : Bool :=
  c.isAlphanum || c == '_' || c == '/' || c == '-'

/-- The left-to-right scan of the global TAG_REGEX (hash then a greedy run
of one or more body chars, non-overlapping matches).  The `fuel` argument
only makes the recursion structural; every step consumes at least one input
character, so `fuel = length + 1` never runs out. -/
def tagScan : Nat → Str → List Str
  | 0, _ => []
  | _ + 1, [] => []
  | fuel + 1, c :: rest =>
    if c == '#' then
      match rest.takeWhile tagBodyChar with
      | [] => tagScan fuel rest
      | b :: bs => ('#' :: b :: bs) :: tagScan fuel (rest.drop (b :: bs).length)
    else tagScan fuel rest

/-- All matches of TAG_REGEX in the text, as `text.match(TAG_REGEX)`
produces them. -/
def findTags (s : Str) : List Str := tagScan (s.length + 1) s

/-- `[...new Set(xs)]`: de-duplicate keeping first occurrences in order. -/
def dedupKeepFirst (l : List Str) : List Str :=
  l.foldl (fun acc t => if t ∈ acc then acc else acc ++ [t]) []

/-- MeetingNoteParser.extractTags: all regex matches, de-duplicated in
first-seen order (`matches ? [...new Set(matches)] : []`). -/
def extractTags (text : Str) : List Str :=
  dedupKeepFirst (findTags text)

/-- The MeetingNote record of src/types (the `file` reference is modelled by
its `path` and `basename`). -/
structure MeetingNote where
  path : Str
  basename : Str
  heading : Str
  lineStart : Nat
  lineEnd : Nat
  tags : List Str
  content : Str
  date : Str
deriving DecidableEq, Repr

/-- MeetingNoteParser.finalizeMeetingNote: join the buffered content lines,
extract tags from heading + newline + content, fill in the record. -/
def finalizeMeetingNote (heading : Str) (contentLines : List Str)
    (path basename : Str) (lineStart lineEnd : Nat) : MeetingNote :=
  let content := List.intercalate (str "\n") contentLines
  let fullText := heading ++ '\n' :: content
  { path := path, basename := basename, heading := heading,
    lineStart := lineStart, lineEnd := lineEnd,
    tags := extractTags fullText, content := content, date := basename }

/-- The mutable loop state of MeetingNoteParser.parseDailyNote:
`inNotesSection`, `currentNote` (heading and start line), `currentContent`,
and the accumulated `meetingNotes`. -/
structure ParseState where
  inNotes : Bool
  cur : Option (Str × Nat)
  content : List Str
  out : List MeetingNote
deriving DecidableEq, Repr

/-- The `if (currentNote?.heading) meetingNotes.push(finalize...)` guard:
the open note is emitted only when it exists and its heading is non-empty
(JavaScript truthiness of the heading string). -/
def emitCur (path basename : Str) (cur : Option (Str × Nat))
    (content : List Str) (i : Nat) (out : List MeetingNote) : List MeetingNote :=
  match cur with
  | some (h, st) =>
    if h = [] then out
    else out ++ [finalizeMeetingNote h content path basename st i]
  | none => out

/-- One iteration of the parseDailyNote line loop (line index `i`). -/
def parseStep (header path basename : Str) (i : Nat) (line : Str)
    (s : ParseState) : ParseState :=
  let t := trim line
  if t = header then { s with inNotes := true }
  else if s.inNotes && startsWith t (str "## ") && !(t == header) then
    { inNotes := false, cur := none, content := [],
      out := emitCur path basename s.cur s.content i s.out }
  else if !s.inNotes then s
  else if startsWith t (str "### ") then
    { inNotes := s.inNotes, cur := some (trim (t.drop 4), i), content := [],
      out := emitCur path basename s.cur s.content i s.out }
  else match s.cur with
    | some _ => { s with content := s.content ++ [line] }
    | none => s

/-- The parseDailyNote loop, starting at line index `i`. -/
def runFrom (header path basename : Str) : Nat → ParseState → List Str → ParseState
  | _, s, [] => s
  | i, s, l :: ls =>
    runFrom header path basename (i + 1) (parseStep header path basename i l s) ls

/-- Initial loop state. -/
def initState : ParseState :=
  { inNotes := false, cur := none, content := [], out := [] }

/-- MeetingNoteParser.parseDailyNote: run the loop over all lines (the
configured header is trimmed first, `this.settings.meetingNotesHeader.trim()`),
then emit the still-open note with the document length as end boundary. -/
def parseDailyNote (headerSetting path basename : Str) (lines : List Str) :
    List MeetingNote :=
  let header := trim headerSetting
  let s := runFrom header path basename 0 initState lines
  emitCur path basename s.cur s.content lines.length s.out

/-! ## Relationship engine (MeetingNoteParser.getRelatedMeetingNotes)

The collection produced by `getAllMeetingNotes` is passed in as the
`allNotes` parameter (the vault enumeration itself is an external
collaborator).  JavaScript `Array.prototype.sort` with the consistent
comparator of the source is the stable sort by that comparator, modelled by
`List.insertionSort` (Mathlib's insertion sort is stable). -/

/-- `a.tags.filter((t) => tagSet.has(t)).length` — the number of the note's
tags that occur in the query note's tag set. -/
def sharedCount (tagSet : List Str) (n : MeetingNote) : Nat :=
  (n.tags.filter (fun t => tagSet.contains t)).length

/-- Lexicographic less-or-equal on strings: the order `localeCompare`
induces on plain ASCII date strings. -/
def strLe : Str → Str → Bool
  | [], _ => true
  | _ :: _, [] => false
  | a :: as, b :: bs => if a = b then strLe as bs else decide (a < b)

/-- The sort comparator of getRelatedMeetingNotes, as a less-or-equal test:
`a` may precede `b` iff `comparator(a,b) <= 0`, i.e. shared-tag count
descending, ties broken by date descending. -/
def relLE (tagSet : List Str) (a b : MeetingNote) : Bool :=
  if sharedCount tagSet b ≠ sharedCount tagSet a
  then decide (sharedCount tagSet b < sharedCount tagSet a)
  else strLe b.date a.date

/-- `relLE` as a proposition, for `List.insertionSort`. -/
def RelLE (tagSet : List Str) (a b : MeetingNote) : Prop :=
  relLE tagSet a b = true

instance (tagSet : List Str) : DecidableRel (RelLE tagSet) :=
  fun a b => instDecidableEqBool (relLE tagSet a b) true

/-- MeetingNoteParser.getRelatedMeetingNotes: empty tag set short-circuits
to an empty result; otherwise filter out the positionally-same note and
notes sharing no tag, then stable-sort by the comparator. -/
def getRelatedMeetingNotes (allNotes : List MeetingNote) (note : MeetingNote) :
    List MeetingNote :=
  if note.tags.isEmpty then []
  else
    let tagSet := note.tags
    List.insertionSort (RelLE tagSet)
      (allNotes.filter (fun other =>
        !(other.path == note.path && other.lineStart == note.lineStart) &&
        other.tags.any (fun t => tagSet.contains t)))

/-! ## Task linkage engine (TodoService) -/

/-- The TodoItem record of src/types (`file` modelled by path/basename). -/
structure TodoItem where
  text : Str
  path : Str
  basename : Str
  heading : Option Str
  line : Nat
deriving DecidableEq, Repr

/-- The RelatedTodoItem record: a TodoItem plus relation reason and
matching tags. -/
structure RelatedTodoItem where
  text : Str
  path : Str
  basename : Str
  heading : Option Str
  line : Nat
  relationReason : Str
  matchingTags : List Str
deriving DecidableEq, Repr

/-- Character class of the wiki-link target: anything but a closing bracket
or a pipe. -/
def linkTargetChar (c : Char) : Bool := !(c == ']') && !(c == '|')

/-- Character class of the wiki-link alias: anything but a closing bracket. -/
def aliasChar (c : Char) : Bool := !(c == ']')

/-- Match the LINK_REGEX body right after an opening `[[`: a non-empty
greedy target run, an optional pipe-alias, then `]]`.  Returns the capture
group (the target) and how many characters of `rest` the match consumed.
The greedy runs cannot backtrack usefully (their character classes exclude
the closing bracket), so this deterministic scan equals the regex. -/
def linkFrom (rest : Str) : Option (Str × Nat) :=
  match rest.takeWhile linkTargetChar with
  | [] => none
  | t :: ts =>
    let tgt := t :: ts
    match rest.drop tgt.length with
    | ']' :: ']' :: _ => some (tgt, tgt.length + 2)
    | '|' :: r2 =>
      match r2.takeWhile aliasChar with
      | [] => none
      | a :: as =>
        match r2.drop (a :: as).length with
        | ']' :: ']' :: _ => some (tgt, tgt.length + 1 + (a :: as).length + 2)
        | _ => none
    | _ => none

/-- Left-to-right global scan for LINK_REGEX matches, collecting the target
capture of each match (fuel-structural; every step consumes input). -/
def linkScan : Nat → Str → List Str
  | 0, _ => []
  | _ + 1, [] => []
  | fuel + 1, '[' :: '[' :: rest =>
    (match linkFrom rest with
     | some (tgt, k) => tgt :: linkScan fuel (rest.drop k)
     | none => linkScan fuel ('[' :: rest))
  | fuel + 1, _ :: rest => linkScan fuel rest

/-- All wiki-link targets in a text, in order. -/
def extractLinkTargets (s : Str) : List Str := linkScan (s.length + 1) s

/-- TodoService.todoHasLinkToNote: a wiki link targeting the note's file
basename (exactly or as a path suffix), or the lowercased todo text
containing the lowercased note heading. -/
def todoHasLinkToNote (todo : TodoItem) (note : MeetingNote) : Bool :=
  (extractLinkTargets todo.text).any (fun tgt =>
    tgt == note.basename || endsWith tgt ('/' :: note.basename))
  || isSubstr (lowerStr note.heading) (lowerStr todo.text)

/-- The `noteTagsOriginal` map of getTodosForMeetingNote: built from
`[t.toLowerCase(), t]` pairs, later entries overwriting earlier ones, so a
lookup returns the last tag with the given lowercase form. -/
def noteTagsOriginal (tags : List Str) (key : Str) : Option Str :=
  tags.reverse.find? (fun t => lowerStr t == key)

/-- The matching-tags loop of getTodosForMeetingNote: for each tag of the
todo's file (from the metadata cache), if its lowercase form is in the
note's lowercased tag set, push the note's original casing. -/
def collectMatchingTags (noteTags fileTagList : List Str) : List Str :=
  fileTagList.foldl (fun acc tag =>
    if noteTags.any (fun nt => lowerStr nt == lowerStr tag) then
      match noteTagsOriginal noteTags (lowerStr tag) with
      | some orig => acc ++ [orig]
      | none => acc
    else acc) []

/-- The per-candidate body of the getTodosForMeetingNote loop: skip todos
from the note's own file; otherwise classify as "shared tag" (non-empty
tag intersection) or "linked" (explicit reference), else drop. -/
def processTodo (fileTags : Str → List Str) (note : MeetingNote)
    (todo : TodoItem) : Option RelatedTodoItem :=
  if todo.path == note.path then none
  else
    let matchingTags :=
      if note.tags.isEmpty then []
      else collectMatchingTags note.tags (fileTags todo.path)
    if !matchingTags.isEmpty then
      some { text := todo.text, path := todo.path, basename := todo.basename,
             heading := todo.heading, line := todo.line,
             relationReason := str "shared tag", matchingTags := matchingTags }
    else if todoHasLinkToNote todo note then
      some { text := todo.text, path := todo.path, basename := todo.basename,
             heading := todo.heading, line := todo.line,
             relationReason := str "linked", matchingTags := matchingTags }
    else none

/-- TodoService.getTodosForMeetingNote: scan all todos (supplied by the
external vault scan) and keep the classified ones, in scan order.  The
host metadata cache is the `fileTags` parameter. -/
def getTodosForMeetingNote (allTodos : List TodoItem)
    (fileTags : Str → List Str) (note : MeetingNote) : List RelatedTodoItem :=
  allTodos.filterMap (processTodo fileTags note)

/-! ## Suggestion engine (TagService) -/

/-- Character class `[a-z0-9]` of the tokenizer (applied after
lowercasing). -/
def isTokenChar (c : Char) : Bool :=
  ('a' ≤ c && c ≤ 'z') || ('0' ≤ c && c ≤ '9')

/-- Maximal runs of token characters (fuel-structural).  Splitting a string
on runs of non-token characters yields exactly these runs plus empty
pieces, which the length filter below removes in either reading. -/
def runScan : Nat → Str → List Str
  | 0, _ => []
  | _ + 1, [] => []
  | fuel + 1, c :: rest =>
    if isTokenChar c then
      (c :: rest.takeWhile isTokenChar) ::
        runScan fuel (rest.drop (rest.takeWhile isTokenChar).length)
    else runScan fuel rest

/-- TagService.tokenize: lowercase, split on non-alphanumeric runs, keep
tokens of length greater than 2. -/
def tokenize (text : Str) : List Str :=
  (runScan ((lowerStr text).length + 1) (lowerStr text)).filter
    (fun t => 2 < t.length)

/-- `tag.replace(regex of a leading hash, empty)`: strip one leading `#`. -/
def stripHash : Str → Str
  | '#' :: r => r
  | s => s

/-- Separator class of `tagName.split` in calculateTagScore: slash or dash. -/
def sepChar (c : Char) : Bool := c == '/' || c == '-'

/-- JavaScript split on single separator characters, keeping empty pieces
(`"a--b"` splits into three pieces, the middle one empty). -/
def splitSep : Str → List Str
  | [] => [[]]
  | c :: rest =>
    if sepChar c then [] :: splitSep rest
    else match splitSep rest with
      | p :: ps => (c :: p) :: ps
      | [] => [[c]]

/-- The per-token score contribution in calculateTagScore: a whole-name
substring bonus plus, for every part, an exact-part or part-substring
bonus. -/
def scoreToken (tagName : Str) (tagParts : List Str)
    (wWhole wExact wPart : Nat) (token : Str) : Nat :=
  (if isSubstr token tagName || isSubstr tagName token then wWhole else 0)
  + tagParts.foldl (fun acc part =>
      acc + (if part == token then wExact
             else if isSubstr token part || isSubstr part token then wPart
             else 0)) 0

/-- TagService.calculateTagScore: heading tokens weighted 10/15/5, content
tokens weighted 3/5/1. -/
def calculateTagScore (tag : Str) (headingTokens contentTokens : List Str) :
    Nat :=
  let tagName := lowerStr (stripHash tag)
  let tagParts := splitSep tagName
  headingTokens.foldl (fun acc tok => acc + scoreToken tagName tagParts 10 15 5 tok) 0
  + contentTokens.foldl (fun acc tok => acc + scoreToken tagName tagParts 3 5 1 tok) 0

/-- TagService.getMatchReason: list up to three distinct tokens that match
the tag name or one of its parts. -/
def getMatchReason (tag : Str) (tokens : List Str) : Str :=
  let tagName := lowerStr (stripHash tag)
  let tagParts := splitSep tagName
  let matching := tokens.filter (fun token =>
    (isSubstr token tagName || isSubstr tagName token) ||
    tagParts.any (fun part =>
      part == token || isSubstr token part || isSubstr part token))
  let unique := (dedupKeepFirst matching).take 3
  if unique.isEmpty then str "Related"
  else str "Matches: " ++ List.intercalate (str ", ") unique

/-- The TagSuggestion record of src/types. -/
structure TagSuggestion where
  tag : Str
  score : Nat
  reason : Str
deriving DecidableEq, Repr

/-- The sort comparator of suggestTags as a less-or-equal test: score
descending. -/
def suggLE (a b : TagSuggestion) : Bool := b.score ≤ a.score

/-- `suggLE` as a proposition, for `List.insertionSort`. -/
def SuggLE (a b : TagSuggestion) : Prop := suggLE a b = true

instance : DecidableRel SuggLE :=
  fun a b => instDecidableEqBool (suggLE a b) true

/-- TagService.suggestTags: for every vault tag (parameter `allTagNames`,
the keys of getAllVaultTags) not already on the note (case-insensitively),
score it against heading and content tokens; keep positive scores with a
reason, stable-sort by score descending, take the first ten. -/
def suggestTags (allTagNames : List Str) (note : MeetingNote) :
    List TagSuggestion :=
  let headingTokens := tokenize note.heading
  let contentTokens := tokenize note.content
  let allTokens := headingTokens ++ contentTokens
  let existingTags := note.tags.map lowerStr
  let suggestions := allTagNames.filterMap (fun tag =>
    if existingTags.contains (lowerStr tag) then none
    else
      let score := calculateTagScore tag headingTokens contentTokens
      if 0 < score then
        some { tag := tag, score := score, reason := getMatchReason tag allTokens }
      else none)
  (List.insertionSort SuggLE suggestions).take 10

/-! ## Parser lemmas -/

/-- A line that closes nothing and opens nothing while inside the parent
section: not the parent heading, not an H2 line, not a child heading. -/
def plainInside (header l : Str) : Prop :=
  trim l ≠ header ∧ startsWith (trim l) (str "## ") = false ∧
    startsWith (trim l) (str "### ") = false

instance (header l : Str) : Decidable (plainInside header l) := by
  unfold plainInside; infer_instance

theorem parseStep_header {header line : Str} (p b : Str) (i : Nat)
    (s : ParseState) (h : trim line = header) :
    parseStep header p b i line s = { s with inNotes := true } := by
  simp [parseStep, h]

theorem parseStep_close {header line : Str} (p b : Str) (i : Nat)
    (s : ParseState) (hne : trim line ≠ header) (hin : s.inNotes = true)
    (hsw : startsWith (trim line) (str "## ") = true) :
    parseStep header p b i line s =
      { inNotes := false, cur := none, content := [],
        out := emitCur p b s.cur s.content i s.out } := by
  simp [parseStep, hne, hin, hsw]

theorem parseStep_outside {header line : Str} (p b : Str) (i : Nat)
    (s : ParseState) (hne : trim line ≠ header) (hin : s.inNotes = false) :
    parseStep header p b i line s = s := by
  simp [parseStep, hne, hin]

theorem parseStep_child {header line : Str} (p b : Str) (i : Nat)
    (s : ParseState) (hne : trim line ≠ header) (hin : s.inNotes = true)
    (h2 : startsWith (trim line) (str "## ") = false)
    (h3 : startsWith (trim line) (str "### ") = true) :
    parseStep header p b i line s =
      { inNotes := true, cur := some (trim ((trim line).drop 4), i),
        content := [], out := emitCur p b s.cur s.content i s.out } := by
  simp [parseStep, hne, hin, h2, h3]

theorem parseStep_plain_open {header line : Str} (p b : Str) (i : Nat)
    (s : ParseState) (c : Str × Nat) (hne : trim line ≠ header)
    (hin : s.inNotes = true)
    (h2 : startsWith (trim line) (str "## ") = false)
    (h3 : startsWith (trim line) (str "### ") = false)
    (hc : s.cur = some c) :
    parseStep header p b i line s = { s with content := s.content ++ [line] } := by
  simp [parseStep, hne, hin, h2, h3, hc]

theorem parseStep_plain_none {header line : Str} (p b : Str) (i : Nat)
    (s : ParseState) (hne : trim line ≠ header) (hin : s.inNotes = true)
    (h2 : startsWith (trim line) (str "## ") = false)
    (h3 : startsWith (trim line) (str "### ") = false)
    (hc : s.cur = none) :
    parseStep header p b i line s = s := by
  simp [parseStep, hne, hin, h2, h3, hc]

theorem runFrom_append (header p b : Str) (i : Nat) (s : ParseState)
    (xs ys : List Str) :
    runFrom header p b i s (xs ++ ys) =
      runFrom header p b (i + xs.length) (runFrom header p b i s xs) ys := by
  induction xs generalizing i s with
  | nil => simp [runFrom]
  | cons x xs ih =>
    simp only [List.cons_append, runFrom, List.length_cons, List.append_eq]
    rw [show i + (xs.length + 1) = (i + 1) + xs.length from by omega]
    exact ih (i + 1) _

theorem runFrom_outside (header p b : Str) (i : Nat) (s : ParseState)
    (ls : List Str) (hin : s.inNotes = false)
    (hls : ∀ l ∈ ls, trim l ≠ header) :
    runFrom header p b i s ls = s := by
  induction ls generalizing i with
  | nil => rfl
  | cons l ls ih =>
    have hstep := @parseStep_outside header l p b i s
      (hls l (by simp)) hin
    simp only [runFrom, hstep]
    exact ih (i + 1) (fun x hx => hls x (by simp [hx]))

theorem runFrom_inside_open (header p b : Str) (i : Nat) (s : ParseState)
    (c : Str × Nat) (ls : List Str) (hin : s.inNotes = true)
    (hc : s.cur = some c) (hls : ∀ l ∈ ls, plainInside header l) :
    runFrom header p b i s ls = { s with content := s.content ++ ls } := by
  induction ls generalizing i s with
  | nil => simp [runFrom]
  | cons l ls ih =>
    obtain ⟨hne, h2, h3⟩ := hls l (by simp)
    have hstep := @parseStep_plain_open header l p b i s c
      hne hin h2 h3 hc
    simp only [runFrom, hstep]
    rw [ih (i + 1) { s with content := s.content ++ [l] } hin hc
      (fun x hx => hls x (by simp [hx]))]
    simp

theorem runFrom_inside_none (header p b : Str) (i : Nat) (s : ParseState)
    (ls : List Str) (hin : s.inNotes = true) (hc : s.cur = none)
    (hls : ∀ l ∈ ls, plainInside header l) :
    runFrom header p b i s ls = s := by
  induction ls generalizing i with
  | nil => rfl
  | cons l ls ih =>
    obtain ⟨hne, h2, h3⟩ := hls l (by simp)
    have hstep := @parseStep_plain_none header l p b i s
      hne hin h2 h3 hc
    simp only [runFrom, hstep]
    exact ih (i + 1) (fun x hx => hls x (by simp [hx]))

theorem runFrom_singleton (header p b : Str) (i : Nat) (s : ParseState) (l : Str) :
    runFrom header p b i s [l] = parseStep header p b i l s := rfl

/-! ## Claim C1 — what closes the parent section -/

/-- Claim C1, counterexample.  The claim says an H1 line inside the parent
section closes it (finalizing the open child at the H1 line index, with no
further child notes until the parent heading recurs).  On the document
`["## Notes", "### A", "# Top", "### B"]` the code instead treats the H1
line as body content of note A: two notes come out, A spans lines 1 to 3
(not 1 to 2), and B is produced although the parent heading never
recurred. -/
theorem c1_counterexample :
    (parseDailyNote (str "## Notes") (str "p") (str "b")
      [str "## Notes", str "### A", str "# Top", str "### B"]).map
        (fun n => (n.lineStart, n.lineEnd)) = [(1, 3), (3, 4)] ∧
    (parseDailyNote (str "## Notes") (str "p") (str "b")
      [str "## Notes", str "### A", str "# Top", str "### B"]).map
        (fun n => n.content) = [str "# Top", str ""] := by decide

/-- Claim C1, amended: while inside the parent section, only an H2 line
(trimmed line starting with the H2 marker) that is not the parent heading
closes the section; the open child note, if any (and with a non-empty
heading), is finalized with that line's index as its end line; and while
outside the section no line other than the parent heading changes the
state, so no further child notes are produced until the parent heading is
seen again.  H1 lines do not close the section. -/
theorem c1_h2_closes_section :
    (∀ (header p b line : Str) (i : Nat) (s : ParseState),
      s.inNotes = true → startsWith (trim line) (str "## ") = true →
      trim line ≠ header →
      parseStep header p b i line s =
        { inNotes := false, cur := none, content := [],
          out := emitCur p b s.cur s.content i s.out }) ∧
    (∀ (p b hd : Str) (st : Nat) (content : List Str) (i : Nat)
        (out : List MeetingNote), hd ≠ [] →
      emitCur p b (some (hd, st)) content i out =
        out ++ [finalizeMeetingNote hd content p b st i] ∧
      (finalizeMeetingNote hd content p b st i).lineEnd = i) ∧
    (∀ (header p b : Str) (i : Nat) (s : ParseState) (ls : List Str),
      s.inNotes = false → (∀ l ∈ ls, trim l ≠ header) →
      runFrom header p b i s ls = s) := by
  refine ⟨fun header p b line i s hin hsw hne =>
      parseStep_close p b i s hne hin hsw,
    fun p b hd st content i out hhd => ⟨by simp [emitCur, hhd], rfl⟩,
    fun header p b i s ls hin hls => runFrom_outside header p b i s ls hin hls⟩

/-- Witness for C1: closing an open note A (opened at line 2, with buffered
content) at an H2 line with index 5 emits exactly that note with end line 5
and leaves the section; three subsequent non-heading lines produce
nothing. -/
theorem c1_witness :
    parseStep (str "## Notes") (str "p") (str "b") 5 (str "## Other")
      { inNotes := true, cur := some (str "A", 2), content := [str "x"], out := [] } =
      { inNotes := false, cur := none, content := [],
        out := emitCur (str "p") (str "b") (some (str "A", 2)) [str "x"] 5 [] } ∧
    emitCur (str "p") (str "b") (some (str "A", 2)) [str "x"] 5 [] =
      [finalizeMeetingNote (str "A") [str "x"] (str "p") (str "b") 2 5] ∧
    runFrom (str "## Notes") (str "p") (str "b") 6
      { inNotes := false, cur := none, content := [], out := [] }
      [str "### C", str "body", str "# Top"] =
      { inNotes := false, cur := none, content := [], out := [] } := by
  refine ⟨c1_h2_closes_section.1 _ _ _ _ _ _ rfl (by decide) (by decide),
    ((c1_h2_closes_section.2.1 (str "p") (str "b") (str "A") 2 [str "x"] 5 []
      (by decide)).1).trans (by simp),
    c1_h2_closes_section.2.2 _ _ _ _ _ _ rfl (by decide)⟩

/-! ## Claim C2 — heading capture and tag extraction -/

/-- Claim C2, counterexample.  The claim says the stored heading is
`"Standup"` with the hashtags stripped; the code stores the full trimmed
slice after the H3 marker, hashtags included. -/
theorem c2_counterexample :
    (parseDailyNote (str "## Notes") (str "d/2024-01-15.md") (str "2024-01-15")
      [str "## Notes", str "### Standup #team #daily-sync"]).map
        (fun n => n.heading) = [str "Standup #team #daily-sync"] ∧
    str "Standup #team #daily-sync" ≠ str "Standup" := by decide

/-- Claim C2, amended: the child heading line yields one note whose tag
list is exactly `["#team", "#daily-sync"]` in that order, and whose stored
heading is the marker-stripped trimmed text `"Standup #team #daily-sync"`
with the hashtags still embedded. -/
theorem c2_heading_and_tags :
    (parseDailyNote (str "## Notes") (str "d/2024-01-15.md") (str "2024-01-15")
      [str "## Notes", str "### Standup #team #daily-sync"]).map
        (fun n => (n.heading, n.tags)) =
      [(str "Standup #team #daily-sync", [str "#team", str "#daily-sync"])] := by
  decide

/-! ## Claim C3 — boundary correctness -/

/-- Claim C3: in any document consisting of the parent heading `## Notes`,
the child headings `### A` and `### B` and the sibling heading `## Other`
in that order, with arbitrary plain lines in between (and arbitrary
non-parent-heading lines before and after), parsing yields exactly two
notes; note A's end line equals note B's start line (the index of the
`### B` line), and note B's end line is the index of the `## Other`
line. -/
theorem c3_boundary_correctness (p b : Str) (g0 g1 g2 g3 g4 : List Str)
    (h0 : ∀ l ∈ g0, trim l ≠ str "## Notes")
    (h1 : ∀ l ∈ g1, plainInside (str "## Notes") l)
    (h2 : ∀ l ∈ g2, plainInside (str "## Notes") l)
    (h3 : ∀ l ∈ g3, plainInside (str "## Notes") l)
    (h4 : ∀ l ∈ g4, trim l ≠ str "## Notes") :
    (parseDailyNote (str "## Notes") p b
      (g0 ++ [str "## Notes"] ++ g1 ++ [str "### A"] ++ g2 ++ [str "### B"]
        ++ g3 ++ [str "## Other"] ++ g4)).map (fun n => (n.lineStart, n.lineEnd))
    = [(g0.length + g1.length + 1, g0.length + g1.length + g2.length + 2),
       (g0.length + g1.length + g2.length + 2,
        g0.length + g1.length + g2.length + g3.length + 3)] := by
  have htrim : trim (str "## Notes") = str "## Notes" := by decide
  have hA : trim (List.drop 4 (trim (str "### A"))) = str "A" := by decide
  have hB : trim (List.drop 4 (trim (str "### B"))) = str "B" := by decide
  simp only [parseDailyNote, htrim]
  rw [show g0 ++ [str "## Notes"] ++ g1 ++ [str "### A"] ++ g2 ++ [str "### B"]
        ++ g3 ++ [str "## Other"] ++ g4
      = g0 ++ ([str "## Notes"] ++ (g1 ++ ([str "### A"] ++ (g2 ++ ([str "### B"]
        ++ (g3 ++ ([str "## Other"] ++ g4))))))) from by simp [List.append_assoc]]
  rw [runFrom_append, runFrom_outside _ _ _ _ _ g0 rfl h0]
  rw [runFrom_append, runFrom_singleton,
    parseStep_header p b _ initState (by decide)]
  rw [runFrom_append, runFrom_inside_none _ _ _ _ _ g1 rfl rfl h1]
  rw [runFrom_append, runFrom_singleton,
    parseStep_child p b _ _ (by decide) rfl (by decide) (by decide)]
  simp only [initState, emitCur, hA, List.length_cons, List.length_nil]
  rw [runFrom_append,
    runFrom_inside_open _ _ _ _ _ (str "A", 0 + g0.length + 1 + g1.length) g2 rfl rfl h2]
  rw [runFrom_append, runFrom_singleton,
    parseStep_child p b _ _ (by decide) rfl (by decide) (by decide)]
  simp only [emitCur, hB, if_neg (by decide : ¬(str "A" = ([] : Str))), List.length_cons,
    List.length_nil, List.nil_append]
  rw [runFrom_append,
    runFrom_inside_open _ _ _ _ _
      (str "B", 0 + g0.length + 1 + g1.length + 1 + g2.length) g3 rfl rfl h3]
  rw [runFrom_append, runFrom_singleton,
    parseStep_close p b _ _ (by decide) rfl (by decide)]
  simp only [emitCur, if_neg (by decide : ¬(str "B" = ([] : Str))), List.length_cons,
    List.length_nil, List.nil_append]
  rw [runFrom_outside _ _ _ _ _ g4 rfl h4]
  simp only [emitCur, finalizeMeetingNote, List.map]
  simp only [List.cons.injEq, Prod.mk.injEq, and_true]
  omega

/-- Witness for C3 on a concrete document with one body line under each of
`### A` (one line) and a preamble line inside the section: the two notes
span lines 2 to 4 and 4 to 5. -/
theorem c3_witness :
    (parseDailyNote (str "## Notes") (str "p") (str "b")
      (([] : List Str) ++ [str "## Notes"] ++ [str "intro"] ++ [str "### A"]
        ++ [str "- point"] ++ [str "### B"] ++ [] ++ [str "## Other"]
        ++ [])).map (fun n => (n.lineStart, n.lineEnd)) = [(2, 4), (4, 5)] := by
  have h := c3_boundary_correctness (str "p") (str "b") [] [str "intro"]
    [str "- point"] [] [] (by simp) (by decide) (by decide) (by simp)
    (by simp)
  simpa using h

/-! ## Claims C4 and C10 — per-note invariants

The two invariants (start line strictly below end line; non-empty heading)
are proved together through one inductive invariant on the loop state. -/

/-- The property every emitted note satisfies. -/
def NoteOk (n : MeetingNote) : Prop := n.lineStart < n.lineEnd ∧ n.heading ≠ []

/-- The loop invariant at the point where line `i` is about to be
processed: all emitted notes are well-formed, and an open child note
started strictly before `i`. -/
def ParseInv (i : Nat) (s : ParseState) : Prop :=
  (∀ n ∈ s.out, NoteOk n) ∧ (∀ hd st, s.cur = some (hd, st) → st < i)

theorem emitCur_ok (p b : Str) (cur : Option (Str × Nat)) (content : List Str)
    (i : Nat) (out : List MeetingNote) (hout : ∀ n ∈ out, NoteOk n)
    (hcur : ∀ hd st, cur = some (hd, st) → st < i) :
    ∀ n ∈ emitCur p b cur content i out, NoteOk n := by
  match cur with
  | none => exact hout
  | some (hd, st) =>
    simp only [emitCur]
    by_cases hh : hd = ([] : Str)
    · simpa [hh] using hout
    · intro n hn
      rw [if_neg hh] at hn
      rcases List.mem_append.mp hn with h | h
      · exact hout n h
      · have := hcur hd st rfl
        simp only [List.mem_singleton] at h
        subst h
        exact ⟨this, hh⟩

theorem parseStep_inv (header p b line : Str) (i : Nat) (s : ParseState)
    (h : ParseInv i s) : ParseInv (i + 1) (parseStep header p b i line s) := by
  obtain ⟨hout, hcur⟩ := h
  by_cases hh : trim line = header
  · rw [parseStep_header p b i s hh]
    exact ⟨hout, fun hd st hc => Nat.lt_succ_of_lt (hcur hd st hc)⟩
  · cases hin : s.inNotes with
    | false =>
      rw [parseStep_outside p b i s hh hin]
      exact ⟨hout, fun hd st hc => Nat.lt_succ_of_lt (hcur hd st hc)⟩
    | true =>
      by_cases h2 : startsWith (trim line) (str "## ") = true
      · rw [parseStep_close p b i s hh hin h2]
        exact ⟨emitCur_ok p b s.cur s.content i s.out hout hcur,
          fun hd st hc => by simp at hc⟩
      · rw [Bool.not_eq_true] at h2
        by_cases h3 : startsWith (trim line) (str "### ") = true
        · rw [parseStep_child p b i s hh hin h2 h3]
          refine ⟨emitCur_ok p b s.cur s.content i s.out hout hcur, ?_⟩
          intro hd st hc
          simp only [Option.some.injEq, Prod.mk.injEq] at hc
          omega
        · rw [Bool.not_eq_true] at h3
          cases hc : s.cur with
          | some c =>
            rw [parseStep_plain_open p b i s c hh hin h2 h3 hc]
            exact ⟨hout, fun hd st hc2 => Nat.lt_succ_of_lt (hcur hd st hc2)⟩
          | none =>
            rw [parseStep_plain_none p b i s hh hin h2 h3 hc]
            exact ⟨hout, fun hd st hc2 => Nat.lt_succ_of_lt (hcur hd st hc2)⟩

theorem runFrom_inv (header p b : Str) (i : Nat) (s : ParseState)
    (ls : List Str) (h : ParseInv i s) :
    ParseInv (i + ls.length) (runFrom header p b i s ls) := by
  induction ls generalizing i s with
  | nil => simpa using h
  | cons l ls ih =>
    simp only [runFrom, List.length_cons]
    rw [show i + (ls.length + 1) = (i + 1) + ls.length from by omega]
    exact ih (i + 1) _ (parseStep_inv header p b l i s h)

/-- Every note the parser emits is well-formed: its start line is strictly
below its end line and its heading is non-empty. -/
theorem parse_note_ok (header p b : Str) (lines : List Str) :
    ∀ n ∈ parseDailyNote header p b lines, NoteOk n := by
  have h := runFrom_inv (trim header) p b 0 initState lines
    ⟨by simp [initState], by simp [initState]⟩
  simp only [Nat.zero_add] at h
  exact emitCur_ok p b _ _ lines.length _ h.1 h.2

/-- Claim C4: every MeetingNote produced by the parser, for every document
and configured header, has start line strictly below end line (including
notes finalized at end-of-document, where the document line count is the
end boundary); and a child heading with zero body lines still yields a
valid note with empty body content (concrete instance: `### A` immediately
followed by `### B` and end-of-document). -/
theorem c4_line_span_invariant :
    (∀ (header p b : Str) (lines : List Str) (n : MeetingNote),
      n ∈ parseDailyNote header p b lines → n.lineStart < n.lineEnd) ∧
    (parseDailyNote (str "## Notes") (str "p") (str "b")
      [str "## Notes", str "### A", str "### B"]).map
        (fun n => (n.content, n.lineStart, n.lineEnd)) =
      [(str "", 1, 2), (str "", 2, 3)] := by
  exact ⟨fun header p b lines n hn => (parse_note_ok header p b lines n hn).1,
    by decide⟩

/-- Witness for C4: the parsed note spanning lines 1 to 2 of the zero-body
document satisfies the span inequality. -/
theorem c4_witness :
    (finalizeMeetingNote (str "A") [] (str "p") (str "b") 1 2).lineStart <
      (finalizeMeetingNote (str "A") [] (str "p") (str "b") 1 2).lineEnd :=
  c4_line_span_invariant.1 (str "## Notes") (str "p") (str "b")
    [str "## Notes", str "### A", str "### B"] _ (by decide)

/-- Claim C10, counterexample.  The claim says a child-heading line whose
marker is followed only by whitespace opens a pending note that is never
emitted, and the lines accumulated under it belong to no note in the
output.  In the code such a line (here `"###  "`, which trims to `"###"`
and therefore does not match the `"### "` child test at all) opens
nothing: it and the following line are body content of the already-open
note A, which is emitted with them. -/
theorem c10_counterexample :
    (parseDailyNote (str "## Notes") (str "p") (str "b")
      [str "## Notes", str "### A", str "###  ", str "body", str "### B"]).map
        (fun n => (n.heading, n.content)) =
      [(str "A", str "###  \nbody"), (str "B", str "")] := by decide

/-- Claim C10, amended: every MeetingNote returned by the section parser
has a non-empty heading; and a line consisting of the `###` marker
followed only by whitespace is not recognized as a child heading at all
(its trimmed form is `"###"`, which does not start with `"### "`): it
opens no pending note and is instead accumulated as body content of the
currently open child note, if any. -/
theorem c10_nonempty_heading :
    (∀ (header p b : Str) (lines : List Str) (n : MeetingNote),
      n ∈ parseDailyNote header p b lines → n.heading ≠ []) ∧
    (∀ (header p b line : Str) (i : Nat) (s : ParseState) (c : Str × Nat),
      trim line = str "###" → str "###" ≠ header → s.inNotes = true →
      s.cur = some c →
      parseStep header p b i line s =
        { s with content := s.content ++ [line] }) := by
  refine ⟨fun header p b lines n hn => (parse_note_ok header p b lines n hn).2, ?_⟩
  intro header p b line i s c ht hne hin hc
  exact parseStep_plain_open p b i s c (by rw [ht]; exact hne) hin
    (by rw [ht]; decide) (by rw [ht]; decide) hc

/-- Witness for C10: the note of the single-child document has a non-empty
heading, and a `"###  "` line while note A is open at line 1 is appended
to the content buffer. -/
theorem c10_witness :
    (finalizeMeetingNote (str "A") [] (str "p") (str "b") 1 2).heading ≠ [] ∧
    parseStep (str "## Notes") (str "p") (str "b") 2 (str "###  ")
      { inNotes := true, cur := some (str "A", 1), content := [], out := [] } =
      { inNotes := true, cur := some (str "A", 1), content := [str "###  "],
        out := [] } := by
  refine ⟨c10_nonempty_heading.1 (str "## Notes") (str "p") (str "b")
    [str "## Notes", str "### A", str "### B"] _ (by decide), ?_⟩
  have h := c10_nonempty_heading.2 (str "## Notes") (str "p") (str "b")
    (str "###  ") 2
    { inNotes := true, cur := some (str "A", 1), content := [], out := [] }
    (str "A", 1) (by decide) (by decide) rfl rfl
  simpa using h

/-! ## Claims C5 and C6 — relationship engine -/

theorem strLe_total : ∀ a b : Str, strLe a b = true ∨ strLe b a = true
  | [], _ => Or.inl rfl
  | _ :: _, [] => Or.inr rfl
  | a :: as, b :: bs => by
    by_cases h : a = b
    · simpa [strLe, h] using strLe_total as bs
    · rcases lt_or_gt_of_ne h with hlt | hlt
      · exact Or.inl (by simp [strLe, h, hlt])
      · exact Or.inr (by simp [strLe, Ne.symm h, hlt])

theorem strLe_trans : ∀ a b c : Str, strLe a b = true → strLe b c = true →
    strLe a c = true
  | [], _, _, _, _ => rfl
  | _ :: _, [], _, hab, _ => by simp [strLe] at hab
  | _ :: _, _ :: _, [], _, hbc => by simp [strLe] at hbc
  | a :: as, b :: bs, c :: cs, hab, hbc => by
    by_cases h1 : a = b <;> by_cases h2 : b = c
    · subst h1; subst h2
      simp only [strLe, if_pos rfl] at hab hbc ⊢
      exact strLe_trans as bs cs hab hbc
    · subst h1
      simp only [strLe, if_pos rfl, if_neg h2] at hbc ⊢
      exact hbc
    · subst h2
      simp only [strLe, if_neg h1] at hab ⊢
      exact hab
    · simp only [strLe, if_neg h1, if_neg h2, decide_eq_true_eq] at hab hbc
      have h3 : a < c := lt_trans hab hbc
      simp [strLe, ne_of_lt h3, h3]

theorem relLE_eq (ts : List Str) (a b : MeetingNote) :
    relLE ts a b = true ↔
      (sharedCount ts b < sharedCount ts a ∨
        (sharedCount ts b = sharedCount ts a ∧ strLe b.date a.date = true)) := by
  unfold relLE
  by_cases h : sharedCount ts b = sharedCount ts a <;> simp [h]

theorem relLE_total (ts : List Str) (a b : MeetingNote) :
    relLE ts a b = true ∨ relLE ts b a = true := by
  rw [relLE_eq, relLE_eq]
  rcases Nat.lt_trichotomy (sharedCount ts b) (sharedCount ts a) with h | h | h
  · exact Or.inl (Or.inl h)
  · rcases strLe_total b.date a.date with hd | hd
    · exact Or.inl (Or.inr ⟨h, hd⟩)
    · exact Or.inr (Or.inr ⟨h.symm, hd⟩)
  · exact Or.inr (Or.inl h)

theorem relLE_trans (ts : List Str) (a b c : MeetingNote) :
    relLE ts a b = true → relLE ts b c = true → relLE ts a c = true := by
  rw [relLE_eq, relLE_eq, relLE_eq]
  intro hab hbc
  rcases hab with h | ⟨he, hd⟩ <;> rcases hbc with h2 | ⟨he2, hd2⟩
  · exact Or.inl (by omega)
  · exact Or.inl (by omega)
  · exact Or.inl (by omega)
  · exact Or.inr ⟨by omega, strLe_trans c.date b.date a.date hd2 hd⟩

instance (ts : List Str) : IsTotal MeetingNote (RelLE ts) :=
  ⟨fun a b => relLE_total ts a b⟩

instance (ts : List Str) : IsTrans MeetingNote (RelLE ts) :=
  ⟨fun a b c => relLE_trans ts a b c⟩

theorem mem_related_iff (c : List MeetingNote) (note m : MeetingNote) :
    m ∈ getRelatedMeetingNotes c note ↔
      note.tags ≠ [] ∧ m ∈ c ∧
      ¬(m.path = note.path ∧ m.lineStart = note.lineStart) ∧
      ∃ t ∈ m.tags, t ∈ note.tags := by
  unfold getRelatedMeetingNotes
  by_cases he : note.tags.isEmpty
  · rw [if_pos he]
    simp [List.isEmpty_iff.mp he]
  · rw [if_neg he]
    rw [List.mem_insertionSort]
    rw [List.mem_filter]
    simp only [List.isEmpty_iff] at he
    simp [he, List.contains, List.elem_iff, and_assoc]
    tauto

/-- Sample note with one tag, used by witnesses. -/
def noteX : MeetingNote :=
  { path := str "a.md", basename := str "a", heading := str "X",
    lineStart := 1, lineEnd := 2, tags := [str "#t"], content := [],
    date := str "2024-01-15" }

/-- Second sample note sharing the tag of `noteX`, in another file. -/
def noteY : MeetingNote :=
  { path := str "b.md", basename := str "b", heading := str "Y",
    lineStart := 3, lineEnd := 5, tags := [str "#t", str "#u"], content := [],
    date := str "2024-01-16" }

/-- Sample note with no tags. -/
def noteNoTags : MeetingNote :=
  { path := str "c.md", basename := str "c", heading := str "Z",
    lineStart := 1, lineEnd := 2, tags := [], content := [],
    date := str "2024-01-17" }

/-- Claim C5: tag-sharing notes of the collection are mutually related
(positionally distinct ones — the engine excludes the note itself, matched
by document path plus start line), and a note positionally identical to
the query note never appears in its related list. -/
theorem c5_relatedness_symmetry :
    (∀ (c : List MeetingNote) (X Y : MeetingNote), X ∈ c → Y ∈ c →
      (∃ t, t ∈ X.tags ∧ t ∈ Y.tags) →
      ¬(Y.path = X.path ∧ Y.lineStart = X.lineStart) →
      Y ∈ getRelatedMeetingNotes c X ∧ X ∈ getRelatedMeetingNotes c Y) ∧
    (∀ (c : List MeetingNote) (N M : MeetingNote),
      M.path = N.path → M.lineStart = N.lineStart →
      M ∉ getRelatedMeetingNotes c N) := by
  constructor
  · intro c X Y hX hY ⟨t, htX, htY⟩ hne
    constructor
    · exact (mem_related_iff c X Y).mpr
        ⟨List.ne_nil_of_mem htX, hY, hne, t, htY, htX⟩
    · refine (mem_related_iff c Y X).mpr
        ⟨List.ne_nil_of_mem htY, hX, ?_, t, htX, htY⟩
      intro ⟨hp, hs⟩
      exact hne ⟨hp.symm, hs.symm⟩
  · intro c N M hp hs hmem
    exact ((mem_related_iff c N M).mp hmem).2.2.1 ⟨hp, hs⟩

/-- Witness for C5 on the two-note collection sharing tag `#t`: each is in
the other's related list, and `noteX` is not related to a copy of itself. -/
theorem c5_witness :
    (noteY ∈ getRelatedMeetingNotes [noteX, noteY] noteX ∧
     noteX ∈ getRelatedMeetingNotes [noteX, noteY] noteY) ∧
    noteX ∉ getRelatedMeetingNotes [noteX, noteY] noteX :=
  ⟨c5_relatedness_symmetry.1 [noteX, noteY] noteX noteY (by decide) (by decide)
      ⟨str "#t", by decide, by decide⟩ (by decide),
    c5_relatedness_symmetry.2 [noteX, noteY] noteX noteX rfl rfl⟩

/-- Claim C6: the related-notes sequence is sorted by the comparator
(shared-tag count with the query note descending, ties broken by date key
descending) — `relLE` is exactly that comparator — and for a note with an
empty tag set the result is empty.  The result is a pure function of the
collection and the note (determinism is inherent: the model has no other
inputs). -/
theorem c6_related_ordering (c : List MeetingNote) (note : MeetingNote) :
    (note.tags = [] → getRelatedMeetingNotes c note = []) ∧
    List.Pairwise (fun a b => relLE note.tags a b = true)
      (getRelatedMeetingNotes c note) := by
  constructor
  · intro h
    simp [getRelatedMeetingNotes, h]
  · unfold getRelatedMeetingNotes
    by_cases he : note.tags.isEmpty
    · simp [he]
    · rw [if_neg he]
      exact List.sorted_insertionSort (RelLE note.tags) _

/-- Witness for C6: the empty-tag note gets an empty related list, and the
two-note collection's related list for `noteX` is pairwise ordered. -/
theorem c6_witness :
    getRelatedMeetingNotes [noteX, noteY] noteNoTags = [] ∧
    List.Pairwise (fun a b => relLE noteX.tags a b = true)
      (getRelatedMeetingNotes [noteX, noteY] noteX) :=
  ⟨(c6_related_ordering [noteX, noteY] noteNoTags).1 rfl,
    (c6_related_ordering [noteX, noteY] noteX).2⟩

/-! ## Claims C7 and C8 — suggestion engine -/

theorem isPrefixB_refl : ∀ k : Str, isPrefixB k k = true
  | [] => rfl
  | c :: cs => by simp [isPrefixB, isPrefixB_refl cs]

theorem isSubstr_self (k : Str) : isSubstr k k = true := by
  unfold isSubstr
  rw [if_pos (isPrefixB_refl k)]

theorem runScan_chars : ∀ (fuel : Nat) (s t : Str), t ∈ runScan fuel s →
    ∀ c ∈ t, isTokenChar c = true := by
  intro fuel
  induction fuel with
  | zero => intro s t ht; simp [runScan] at ht
  | succ fuel ih =>
    intro s t ht
    match s with
    | [] => simp [runScan] at ht
    | c :: rest =>
      by_cases hc : isTokenChar c = true
      · rw [runScan, if_pos hc] at ht
        rcases List.mem_cons.mp ht with rfl | hmem
        · intro x hx
          rcases List.mem_cons.mp hx with rfl | hx2
          · exact hc
          · exact List.mem_takeWhile_imp hx2
        · exact ih _ t hmem
      · rw [runScan, if_neg hc] at ht
        exact ih rest t ht

theorem tokenize_chars (s t : Str) (h : t ∈ tokenize s) :
    2 < t.length ∧ ∀ c ∈ t, isTokenChar c = true := by
  unfold tokenize at h
  rw [List.mem_filter] at h
  exact ⟨by simpa using h.2, runScan_chars _ _ t h.1⟩

theorem token_not_sep (c : Char) (h : isTokenChar c = true) : sepChar c = false := by
  cases hs : sepChar c with
  | false => rfl
  | true =>
    simp only [sepChar, Bool.or_eq_true, beq_iff_eq] at hs
    rcases hs with rfl | rfl <;> simp [isTokenChar] at h

theorem splitSep_no_sep : ∀ k : Str, (∀ c ∈ k, sepChar c = false) →
    splitSep k = [k]
  | [], _ => rfl
  | c :: rest, h => by
    have hc : sepChar c = false := h c (by simp)
    have ih := splitSep_no_sep rest (fun x hx => h x (by simp [hx]))
    simp [splitSep, hc, ih]

theorem mem_suggestTags (allT : List Str) (note : MeetingNote)
    (s : TagSuggestion) (h : s ∈ suggestTags allT note) :
    s.tag ∈ allT ∧
    lowerStr s.tag ∉ note.tags.map lowerStr ∧
    0 < s.score ∧
    s.score = calculateTagScore s.tag (tokenize note.heading)
      (tokenize note.content) := by
  simp only [suggestTags] at h
  have h1 := List.mem_of_mem_take h
  rw [List.mem_insertionSort, List.mem_filterMap] at h1
  obtain ⟨tag, htag, heq⟩ := h1
  by_cases hc : (note.tags.map lowerStr).contains (lowerStr tag) = true
  · rw [if_pos hc] at heq; cases heq
  · rw [if_neg hc] at heq
    by_cases hs : 0 < calculateTagScore tag (tokenize note.heading)
        (tokenize note.content)
    · rw [if_pos hs] at heq
      cases heq
      exact ⟨htag, fun hmem => hc (List.elem_eq_true_of_mem hmem), hs, rfl⟩
    · rw [if_neg hs] at heq; cases heq

/-- Claim C7: a candidate tag scored zero never appears in the suggestTags
output; and a tag whose bare (marker-stripped, lowercased) name equals a
heading token scores strictly more from that single heading token than the
same tag can score from any single body token. -/
theorem c7_suggestion_gating :
    (∀ (allT : List Str) (note : MeetingNote) (t : Str),
      calculateTagScore t (tokenize note.heading) (tokenize note.content) = 0 →
      ∀ s ∈ suggestTags allT note, s.tag ≠ t) ∧
    (∀ (h tag k b : Str), k ∈ tokenize h → lowerStr (stripHash tag) = k →
      calculateTagScore tag [] [b] < calculateTagScore tag [k] []) := by
  constructor
  · intro allT note t hzero s hs hst
    obtain ⟨_, _, hpos, hscore⟩ := mem_suggestTags allT note s hs
    rw [hst, hzero] at hscore
    omega
  · intro h tag k b hk hlow
    obtain ⟨hlen, hchars⟩ := tokenize_chars h k hk
    have hsplit : splitSep k = [k] :=
      splitSep_no_sep k (fun c hc => token_not_sep c (hchars c hc))
    have h25 : calculateTagScore tag [k] [] = 25 := by
      simp [calculateTagScore, hlow, hsplit, scoreToken, isSubstr_self]
    have h8 : calculateTagScore tag [] [b] ≤ 8 := by
      simp only [calculateTagScore, hlow, hsplit, List.foldl, scoreToken,
        Nat.zero_add]
      split_ifs <;> omega
    omega

/-- Witness for C7: with the only vault tag scoring zero against an
untitled empty note, the output contains no suggestion with that tag (there
are none at all); and the concrete comparison 8 < 25 for tag `#team`
against heading token `team` versus body token `team`. -/
theorem c7_witness :
    (∀ s ∈ suggestTags [str "#q"]
      { path := str "p", basename := str "b", heading := str "Z",
        lineStart := 0, lineEnd := 1, tags := [], content := [],
        date := str "b" }, s.tag ≠ str "#q") ∧
    calculateTagScore (str "#team") [] [str "team"] <
      calculateTagScore (str "#team") [str "team"] [] :=
  ⟨c7_suggestion_gating.1 [str "#q"] _ (str "#q") (by decide),
    c7_suggestion_gating.2 (str "Team sync") (str "#team") (str "team")
      (str "team") (by decide) (by decide)⟩

instance : IsTotal TagSuggestion SuggLE :=
  ⟨fun a b => by
    simp only [SuggLE, suggLE, decide_eq_true_eq]
    omega⟩

instance : IsTrans TagSuggestion SuggLE :=
  ⟨fun a b c hab hbc => by
    simp only [SuggLE, suggLE, decide_eq_true_eq] at hab hbc ⊢
    omega⟩

/-- Claim C8: suggestTags returns at most 10 suggestions, sorted by score
descending, each drawn from the supplied vault tag list and none equal
(case-insensitively) to a tag already on the note. -/
theorem c8_suggest_contract (allT : List Str) (note : MeetingNote) :
    (suggestTags allT note).length ≤ 10 ∧
    List.Pairwise (fun a b => b.score ≤ a.score) (suggestTags allT note) ∧
    ∀ s ∈ suggestTags allT note,
      s.tag ∈ allT ∧ lowerStr s.tag ∉ note.tags.map lowerStr := by
  refine ⟨?_, ?_, ?_⟩
  · simp only [suggestTags, List.length_take]
    omega
  · simp only [suggestTags]
    exact List.Pairwise.imp
      (fun hab => by simpa [SuggLE, suggLE, decide_eq_true_eq] using hab)
      (List.Pairwise.sublist (List.take_sublist 10 _)
        (List.sorted_insertionSort SuggLE _))
  · intro s hs2
    obtain ⟨h1, h2, _, _⟩ := mem_suggestTags allT note s hs2
    exact ⟨h1, h2⟩



/-- Sample note for the C8 witness: heading tokens `team`, `standup`. -/
def noteT : MeetingNote :=
  { path := str "p", basename := str "b", heading := str "Team Standup",
    lineStart := 1, lineEnd := 2, tags := [], content := [],
    date := str "b" }

/-- Witness for C8: the single produced suggestion for vault tag `#team`
against `noteT` is drawn from the vault list and not an existing note
tag. -/
theorem c8_witness :
    ({ tag := str "#team", score := 25, reason := str "Matches: team" }
        : TagSuggestion).tag ∈ [str "#team"] ∧
    lowerStr ({ tag := str "#team", score := 25, reason := str "Matches: team" }
        : TagSuggestion).tag ∉ noteT.tags.map lowerStr :=
  (c8_suggest_contract [str "#team"] noteT).2.2 _ (by decide)

/-! ## Claim C9 — task linkage engine -/

/-- Claim C9: every related todo item comes from a document other than the
note's own, its relation reason is either `"shared tag"` or `"linked"`,
and a `"linked"` item always carries an empty matching-tag list. -/
theorem c9_todo_relation (allTodos : List TodoItem) (fileTags : Str → List Str)
    (note : MeetingNote) :
    ∀ r ∈ getTodosForMeetingNote allTodos fileTags note,
      r.path ≠ note.path ∧
      (r.relationReason = str "shared tag" ∨ r.relationReason = str "linked") ∧
      (r.relationReason = str "linked" → r.matchingTags = []) := by
  intro r hr
  rw [getTodosForMeetingNote, List.mem_filterMap] at hr
  obtain ⟨todo, _, heq⟩ := hr
  simp only [processTodo] at heq
  by_cases hp : (todo.path == note.path) = true
  · rw [if_pos hp] at heq; cases heq
  · rw [if_neg hp] at heq
    have hpath : todo.path ≠ note.path := by
      intro h
      exact hp (by simp [h])
    set M := if note.tags.isEmpty then []
      else collectMatchingTags note.tags (fileTags todo.path) with hM
    by_cases hMe : M.isEmpty = true
    · rw [if_neg (by simp [hMe])] at heq
      by_cases hl : todoHasLinkToNote todo note = true
      · rw [if_pos hl] at heq
        cases heq
        exact ⟨hpath, Or.inr rfl, fun _ => List.isEmpty_iff.mp hMe⟩
      · rw [if_neg hl] at heq; cases heq
    · rw [if_pos (by simp [Bool.not_eq_true] at hMe ⊢; simp [hMe])] at heq
      cases heq
      exact ⟨hpath, Or.inl rfl, fun h =>
        absurd (show str "shared tag" = str "linked" from h) (by decide)⟩

/-- Sample todo in another file mentioning heading `X` of `noteX`. -/
def todoLinked : TodoItem :=
  { text := str "follow up on x with design", path := str "o.md",
    basename := str "o", heading := some (str "Inbox"), line := 4 }

/-- The related item the linkage engine produces for `todoLinked`. -/
def linkedItem : RelatedTodoItem :=
  { text := str "follow up on x with design", path := str "o.md",
    basename := str "o", heading := some (str "Inbox"), line := 4,
    relationReason := str "linked", matchingTags := [] }

/-- Witness for C9: the one related item produced for `noteX` (related
because its text contains the lowercased heading `x`) is from another
file, has reason `"linked"`, and carries no matching tags. -/
theorem c9_witness :
    linkedItem.path ≠ noteX.path ∧
    (linkedItem.relationReason = str "shared tag" ∨
      linkedItem.relationReason = str "linked") ∧
    (linkedItem.relationReason = str "linked" → linkedItem.matchingTags = []) :=
  c9_todo_relation [todoLinked] (fun _ => []) noteX linkedItem (by decide)

end Reflector
